import Mathlib

/-!
Verification of the connection-establishment and access-control layer of the
httransform proxy: the sequential dial loop, the TLS configuration store, the
request-URI normalization, and the Basic-authentication evaluators.

Byte strings (Go strings and byte slices) are modelled as lists of natural
numbers, one per byte; all inputs of interest are ASCII, where Go's UTF-8
bytes coincide with character codes.
-/

set_option autoImplicit false

/-- Bytes of an ASCII string: Go strings are byte sequences, and on ASCII
input the UTF-8 bytes are the character codes. -/
def strBytes (s : String) : List Nat :=
  s.data.map Char.toNat

/-- Standard base64 alphabet of encoding/base64 StdEncoding: 6-bit value to
ASCII code. -/
def b64char (i : Nat) : Nat :=
  if i < 26 then 65 + i
  else if i < 52 then 97 + (i - 26)
  else if i < 62 then 48 + (i - 52)
  else if i = 62 then 43
  else 47

/-- Value of one base64 alphabet character, none outside the alphabet. -/
def b64val (c : Nat) : Option Nat :=
  if 65 ≤ c ∧ c ≤ 90 then some (c - 65)
  else if 97 ≤ c ∧ c ≤ 122 then some (26 + (c - 97))
  else if 48 ≤ c ∧ c ≤ 57 then some (52 + (c - 48))
  else if c = 43 then some 62
  else if c = 47 then some 63
  else none

/-- Standard padded base64 encoding, as encoding/base64
StdEncoding.EncodeToString produces it (61 is the ASCII code of the padding
character). -/
def b64encode : List Nat → List Nat
  | [] => []
  | [b1] => [b64char (b1 / 4), b64char (b1 % 4 * 16), 61, 61]
  | [b1, b2] => [b64char (b1 / 4), b64char (b1 % 4 * 16 + b2 / 16), b64char (b2 % 16 * 4), 61]
  | b1 :: b2 :: b3 :: rest =>
      b64char (b1 / 4) :: b64char (b1 % 4 * 16 + b2 / 16) ::
        b64char (b2 % 16 * 4 + b3 / 64) :: b64char (b3 % 64) :: b64encode rest

/-- Decoding of padded base64 groups of four characters, padding allowed only
in the final group, as encoding/base64 StdEncoding accepts them (trailing
bits beyond the encoded bytes are ignored, as in the non-strict decoder). -/
def b64decodeGroups : List Nat → Option (List Nat)
  | [] => some []
  | c1 :: c2 :: c3 :: c4 :: rest =>
    match b64val c1, b64val c2 with
    | some d1, some d2 =>
      if c3 = 61 then
        if c4 = 61 ∧ rest = [] then some [d1 * 4 + d2 / 16] else none
      else
        match b64val c3 with
        | some d3 =>
          if c4 = 61 then
            if rest = [] then some [d1 * 4 + d2 / 16, d2 % 16 * 16 + d3 / 4] else none
          else
            match b64val c4 with
            | some d4 =>
              match b64decodeGroups rest with
              | some ds => some ((d1 * 4 + d2 / 16) :: (d2 % 16 * 16 + d3 / 4) :: (d3 % 4 * 64 + d4) :: ds)
              | none => none
            | none => none
        | none => none
    | _, _ => none
  | _ => none

/-- Model of encoding/base64 StdEncoding.DecodeString: carriage returns and
newlines are ignored, then the padded groups are decoded; none is a decode
error. -/
def b64decode (l : List Nat) : Option (List Nat) :=
  b64decodeGroups (l.filter fun c => c != 13 && c != 10)

/-- ASCII lower-casing of one byte. -/
def lowerByte (c : Nat) : Nat :=
  if 65 ≤ c ∧ c ≤ 90 then c + 32 else c

/-- Case-insensitive byte-string equality, modelling Go strings.EqualFold and
bytes.EqualFold restricted to ASCII, which covers the scheme-token
comparisons of the source. -/
def asciiEqualFold : List Nat → List Nat → Bool
  | [], [] => true
  | x :: xs, y :: ys => lowerByte x == lowerByte y && asciiEqualFold xs ys
  | _, _ => false

/-- Index of the first occurrence of byte b, modelling strings.IndexByte and
bytes.IndexByte with none for -1. -/
def indexByte (l : List Nat) (b : Nat) : Option Nat :=
  l.findIdx? (fun c => c == b)

/-- Model of Go crypto/subtle.ConstantTimeCompare: 1 when the two byte
slices have equal length and contents, else 0. -/
def constantTimeCompare (x y : List Nat) : Nat :=
  if x = y then 1 else 0

/-- One configured credential pair, basicAuthUserInfo of the cached basic
authenticator: user name and password as raw bytes. -/
structure UserInfo where
  user : List Nat
  password : List Nat
deriving DecidableEq

/-- basicAuthUserInfo.OK: the user comparison and the password comparison
each produce 0 or 1, and the pair matches exactly when their sum is 2. -/
def UserInfo.OK (u : UserInfo) (user password : List Nat) : Bool :=
  constantTimeCompare u.user user + constantTimeCompare u.password password == 2

/-- Error kinds of the cached basic authenticator: ErrBasicAuthMalformed,
ErrBasicAuthScheme, ErrBasicAuthPayload, ErrBasicAuthDelimiter,
ErrBasicAuthNoUser. -/
inductive BasicAuthError
  | malformed
  | scheme
  | payload
  | delimiter
  | noSuchUser
deriving DecidableEq

/-- basicAuthResult: the reply (the authenticated user name) on success, or
an error. -/
structure BasicAuthResult where
  reply : Option (List Nat)
  err : Option BasicAuthError
deriving DecidableEq

/-- doAuth of the cached basic authenticator: split at the first space (byte
32), check the Basic token case-insensitively, skip the run of spaces and
tabs (bytes 32 and 9), base64-decode the remainder, split the decoded bytes
at the first colon (byte 58), and compare the pair against every configured
credential pair. -/
def doAuth (infos : List UserInfo) (text : List Nat) : BasicAuthResult :=
  match indexByte text 32 with
  | none => ⟨none, some .malformed⟩
  | some pos =>
    if asciiEqualFold (text.take pos) (strBytes "Basic") then
      match b64decode ((text.drop pos).dropWhile fun c => c == 32 || c == 9) with
      | none => ⟨none, some .payload⟩
      | some decoded =>
        match indexByte decoded 58 with
        | none => ⟨none, some .delimiter⟩
        | some p =>
          if infos.foldl (fun found i => i.OK (decoded.take p) (decoded.drop (p + 1)) || found) false then
            ⟨some (decoded.take p), none⟩
          else ⟨none, some .noSuchUser⟩
    else ⟨none, some .scheme⟩

/-- Authentication cache state of the cached basic authenticator: the ttlru
bounded LRU cache, modelled as the spec describes the BoundedCache — the
entries stand in recency order, newest first, and never exceed the capacity
fixed at construction; insertion evicts the least-recently-used entries
beyond the capacity, and a successful read refreshes the recency of the
entry that was read.
TTL expiry is not modelled: the claims about this cache are scoped within
the one-hour TTL, and eviction here is purely capacity-driven. -/
abbrev AuthCache := List (List Nat × BasicAuthResult)

/-- basicAuthCacheSizeMultiplier of the cached basic authenticator. -/
def basicAuthCacheSizeMultiplier : Nat := 2

/-- Capacity of the authentication cache as NewBasicAuth constructs it:
twice the number of configured credential pairs. -/
def newBasicAuthCap (infos : List UserInfo) : Nat :=
  basicAuthCacheSizeMultiplier * infos.length

/-- Cache lookup by exact header text. -/
def cacheLookup (c : AuthCache) (k : List Nat) : Option BasicAuthResult :=
  match c.find? (fun e => e.1 == k) with
  | some e => some e.2
  | none => none

/-- Recency refresh after a successful read: the entry moves to the front
of the recency order. -/
def cacheTouch (c : AuthCache) (k : List Nat) : AuthCache :=
  match c.find? (fun e => e.1 == k) with
  | some e => e :: c.filter (fun e2 => !(e2.1 == k))
  | none => c

/-- Bounded insertion under the raw header text: the entry moves to the
front and the cache is truncated to its capacity, evicting the
least-recently-used entries beyond it. -/
def cacheSet (cap : Nat) (c : AuthCache) (k : List Nat) (v : BasicAuthResult) : AuthCache :=
  ((k, v) :: c.filter (fun e => !(e.1 == k))).take cap

/-- Outcome of one Auth call: handled flag, reply (identity) and error. -/
structure AuthOutcome where
  handled : Bool
  reply : Option (List Nat)
  err : Option BasicAuthError
deriving DecidableEq

/-- Auth of the cached basic authenticator over a cache of capacity cap:
handled is false when no Proxy-Authorization header is present; otherwise
the cached outcome for the exact header text is replayed, or doAuth runs
once and its result is cached. The third component records whether doAuth
ran during this call. -/
def Auth (cap : Nat) (infos : List UserInfo) (c : AuthCache)
    (header : Option (List Nat)) : AuthOutcome × AuthCache × Bool :=
  match header with
  | none => (⟨false, none, none⟩, c, false)
  | some text =>
    match cacheLookup c text with
    | some r => (⟨true, r.reply, r.err⟩, cacheTouch c text, false)
    | none => (⟨true, (doAuth infos text).reply, (doAuth infos text).err⟩,
        cacheSet cap c text (doAuth infos text), true)

/-- Cache evolution across a sequence of Auth calls. -/
def authMany (cap : Nat) (infos : List UserInfo) (c : AuthCache) :
    List (Option (List Nat)) → AuthCache
  | [] => c
  | h :: hs => authMany cap infos (Auth cap infos c h).2.1 hs

/-- Error kinds of the single-credential authenticator:
ErrMalformedHeaderValue, the unsupported-schema error carrying the schema
token, and ErrFailedAuth. -/
inductive SingleAuthError
  | malformedHeaderValue
  | unsupportedSchema (schema : List Nat)
  | failedAuth
deriving DecidableEq

/-- Stage structure of the single-credential doAuth before the credential
comparison: find the first space (else malformed header), check the Basic
token case-insensitively (else unsupported schema), then skip the run of
spaces and tabs; ok returns the remaining payload bytes. -/
def parseBasicHeader (header : List Nat) : Except SingleAuthError (List Nat) :=
  match indexByte header 32 with
  | none => .error .malformedHeaderValue
  | some pos =>
    if asciiEqualFold (header.take pos) (strBytes "Basic") then
      .ok ((header.drop pos).dropWhile fun c => c == 32 || c == 9)
    else .error (.unsupportedSchema (header.take pos))

/-- doAuth of the single-credential authenticator: the parsed payload is
compared in constant time, byte for byte, against the stored expected
encoding and is never base64-decoded; none means accepted. -/
def doAuthSingle (expectedAuth header : List Nat) : Option SingleAuthError :=
  match parseBasicHeader header with
  | .error e => some e
  | .ok rest =>
    if constantTimeCompare rest expectedAuth == 1 then none else some .failedAuth

/-- Expected payload computed by NewBasicAuth at construction: the standard
base64 encoding of user, a colon (byte 58), and password. -/
def newBasicAuthExpected (user password : List Nat) : List Nat :=
  b64encode (user ++ 58 :: password)

/-- Instrumented constant-time comparison: the result of
constantTimeCompare together with one counted invocation. -/
def constantTimeCompareCt (x y : List Nat) : Nat × Nat :=
  (constantTimeCompare x y, 1)

/-- Instrumented basicAuthUserInfo.OK, mirroring Go's strict evaluation
order: the user comparison and the password comparison both run before the
sum is tested, so each call performs exactly two primitive comparisons. -/
def okCt (u : UserInfo) (user password : List Nat) : Bool × Nat :=
  (((constantTimeCompareCt u.user user).1 + (constantTimeCompareCt u.password password).1 == 2),
    (constantTimeCompareCt u.user user).2 + (constantTimeCompareCt u.password password).2)

/-- Instrumented credential loop of doAuth: OK runs for the current pair
before the disjunction with the accumulator, so every configured pair is
checked; the second component accumulates primitive-comparison
invocations. -/
def credentialLoopCt (infos : List UserInfo) (user password : List Nat) : Bool × Nat :=
  infos.foldl
    (fun acc i => ((okCt i user password).1 || acc.1, acc.2 + (okCt i user password).2))
    (false, 0)

/-- Errors of Dial: a wrapped resolver error, the distinct ErrNoIPs, and the
last connect error wrapped with the target host (the error slot is an
option because Go carries the err variable, nil before any attempt). -/
inductive DialError (H E : Type)
  | cannotResolve (e : E)
  | noIPs
  | cannotDial (host : H) (e : Option E)
deriving DecidableEq

/-- Connect loop of Dial: attempt each address in order, carrying the last
error exactly as Go's err variable; the first success returns, and on
exhaustion the last error is wrapped with the host. -/
def dialLoop {Ip Conn H E : Type} (connect : Ip → Except E Conn) (host : H) :
    List Ip → Option E → Except (DialError H E) Conn
  | [], e => .error (.cannotDial host e)
  | ip :: rest, _ =>
    match connect ip with
    | .ok c => .ok c
    | .error e => dialLoop connect host rest (some e)

/-- Dial: resolve the host, fail ErrNoIPs on an empty address list, else run
the sequential connect loop over the resolved addresses. -/
def Dial {Ip Conn H E : Type} (lookup : Except E (List Ip))
    (connect : Ip → Except E Conn) (host : H) : Except (DialError H E) Conn :=
  match lookup with
  | .error e => .error (.cannotResolve e)
  | .ok [] => .error .noIPs
  | .ok ips => dialLoop connect host ips none

/-- Parsed request-target fields as fasthttp URI parsing produces them
(modelled from fasthttp, an external dependency): the scheme stands before
"://", the host runs to the first slash, and the remaining path part is
split at the first question mark (byte 63) into the original path and the
query string. A target without "://" keeps fasthttp's default scheme http
with the whole target as the path part; fragments are outside the inputs
considered here. -/
structure URI where
  scheme : List Nat
  host : List Nat
  pathOriginal : List Nat
  queryString : List Nat
deriving DecidableEq

/-- Index of the first occurrence of "://" (bytes 58 47 47). -/
def findSchemeSep : List Nat → Option Nat
  | 58 :: 47 :: 47 :: _ => some 0
  | _ :: rest => (findSchemeSep rest).map (· + 1)
  | [] => none

/-- Split the path part at the first question mark into the original path
and the query string. -/
def splitPathQuery (p : List Nat) : List Nat × List Nat :=
  match indexByte p 63 with
  | none => (p, [])
  | some i => (p.take i, p.drop (i + 1))

/-- Parse of a request target into URI fields, following fasthttp. -/
def parseURI (target : List Nat) : URI :=
  match findSchemeSep target with
  | none => ⟨strBytes "http", [], (splitPathQuery target).1, (splitPathQuery target).2⟩
  | some i =>
    match indexByte (target.drop (i + 3)) 47 with
    | none => ⟨target.take i, target.drop (i + 3), strBytes "/", []⟩
    | some j =>
      ⟨target.take i, (target.drop (i + 3)).take j,
        (splitPathQuery ((target.drop (i + 3)).drop j)).1,
        (splitPathQuery ((target.drop (i + 3)).drop j)).2⟩

/-- PatchHTTPRequest: when the declared scheme is plain http
(case-insensitive), the request target is replaced by PathOriginal of the
parsed URI; otherwise the request is left unchanged. -/
def PatchHTTPRequest (requestURI : List Nat) : List Nat :=
  if asciiEqualFold (parseURI requestURI).scheme (strBytes "http") then
    (parseURI requestURI).pathOriginal
  else requestURI

/-- Relative form stated by the specification for plain-HTTP targets: the
path and the query string, with scheme and host removed. This definition
follows the specification's words, for comparison with the code's
behaviour. -/
def specRelativePathQuery (u : URI) : List Nat :=
  if u.queryString = [] then u.pathOriginal else u.pathOriginal ++ 63 :: u.queryString

/-- TLS client configuration as built by getTLSConfig: a build identity
(distinct for every construction performed), the identity of the freshly
allocated session-resumption cache, and the InsecureSkipVerify flag. -/
structure TLSConfig where
  buildId : Nat
  sessionCacheId : Nat
  insecureSkipVerify : Bool
deriving DecidableEq

/-- Program counter of one getTLSConfig call for the fixed host: before the
unlocked fast read, waiting for the mutex, inside the critical section, or
finished holding the returned config. -/
inductive TLSPc
  | start
  | waitLock
  | inLock
  | done (c : TLSConfig)
deriving DecidableEq

/-- Global state of the TLS configuration store for one host: a minute
clock, the cached entry with its write time, the mutex, the number of
constructions performed, and the program counters of the calls in flight.
The cache itself is modelled from the spec: a bounded TTL cache (TTL 10
minutes for TLS configs) whose Get never returns an entry older than its
TTL; capacity eviction does not arise with a single host. -/
structure TLSState where
  now : Nat
  cache : Option (TLSConfig × Nat)
  lockHeld : Bool
  builds : Nat
  threads : List TLSPc
deriving DecidableEq

/-- TLSConfigTTL, in minutes. -/
def tlsConfigTTL : Nat := 10

/-- Result of a cache Get: the entry only while the TTL has not elapsed
since its write (modelled from the spec of the bounded cache). -/
def cacheLiveGet (s : TLSState) : Option TLSConfig :=
  match s.cache with
  | some (c, w) => if s.now < w + tlsConfigTTL then some c else none
  | none => none

/-- Interleaving actions of concurrent getTLSConfig calls: the unlocked fast
read, mutex acquisition, the locked re-check (which builds on a miss), and a
clock tick of one minute. -/
inductive TLSAction
  | fastGet (t : Nat)
  | acquire (t : Nat)
  | recheck (t : Nat)
  | tick
deriving DecidableEq

/-- One interleaving step of the TLS configuration store, with skipVerify
the configured TLSSkipVerify flag: the fast read returns a live cached
config without locking; on a miss the call takes the mutex and re-checks;
only when the re-check also misses is a config constructed, with a fresh
session-resumption cache and the flag copied from the options, then
published and returned. -/
def tlsStep (skipVerify : Bool) (s : TLSState) : TLSAction → TLSState
  | .tick => { s with now := s.now + 1 }
  | .fastGet t =>
    match s.threads.get? t with
    | some .start =>
      match cacheLiveGet s with
      | some c => { s with threads := s.threads.set t (.done c) }
      | none => { s with threads := s.threads.set t .waitLock }
    | _ => s
  | .acquire t =>
    match s.threads.get? t with
    | some .waitLock =>
      if s.lockHeld then s
      else { s with lockHeld := true, threads := s.threads.set t .inLock }
    | _ => s
  | .recheck t =>
    match s.threads.get? t with
    | some .inLock =>
      match cacheLiveGet s with
      | some c => { s with lockHeld := false, threads := s.threads.set t (.done c) }
      | none =>
        { s with
          cache := some (⟨s.builds, s.builds, skipVerify⟩, s.now),
          lockHeld := false,
          builds := s.builds + 1,
          threads := s.threads.set t (.done ⟨s.builds, s.builds, skipVerify⟩) }
    | _ => s

/-- Execution of a sequence of interleaving actions. -/
def tlsExec (skipVerify : Bool) (s : TLSState) : List TLSAction → TLSState
  | [] => s
  | a :: rest => tlsExec skipVerify (tlsStep skipVerify s a) rest

/-- Initial store state with n calls about to run for the same host. -/
def tlsInit (n : Nat) : TLSState :=
  ⟨0, none, false, 0, List.replicate n .start⟩

/-- State of one UpgradeToTLS call together with its watchdog goroutine. -/
structure UpgradeState where
  ctxCancelled : Bool
  timerFired : Bool
  handshakeDone : Bool
  cancelCalled : Bool
  connClosed : Bool
  watchdogExited : Bool
  watchdogsSpawned : Nat
deriving DecidableEq

/-- Branches of the watchdog's select: the operation-local ownCtx.Done, the
caller's ctx.Done, and the timeout timer. -/
inductive WatchBranch
  | ownDone
  | ctxDone
  | timer
deriving DecidableEq

/-- Readiness of a select branch: ownCtx is created by context.WithCancel
from the caller's ctx, so its Done channel is closed when either the
deferred cancel ran or the parent context was cancelled. -/
def branchReady (s : UpgradeState) : WatchBranch → Bool
  | .ownDone => s.cancelCalled || s.ctxCancelled
  | .ctxDone => s.ctxCancelled
  | .timer => s.timerFired

/-- Events of one UpgradeToTLS call: the caller's context is cancelled, the
timeout timer fires, the handshake completes (whereupon the call returns and
its deferred cancel runs), or the watchdog's select commits to one ready
branch. -/
inductive UpgradeAction
  | cancelCtx
  | fireTimer
  | finishHandshake
  | wake (b : WatchBranch)
deriving DecidableEq

/-- One step of the UpgradeToTLS call. The handshake can complete only while
the socket is open; the watchdog runs its select once: it exits without
closing on the ownCtx branch and closes the connection then exits on the
ctx and timer branches, exactly as the source's select statement. Go resolves
a select with several ready branches nondeterministically, which the choice
of the wake action models. -/
def upgradeStep (s : UpgradeState) : UpgradeAction → UpgradeState
  | .cancelCtx => { s with ctxCancelled := true }
  | .fireTimer => { s with timerFired := true }
  | .finishHandshake =>
    if s.connClosed || s.handshakeDone then s
    else { s with handshakeDone := true, cancelCalled := true }
  | .wake b =>
    if s.watchdogExited then s
    else if branchReady s b then
      match b with
      | .ownDone => { s with watchdogExited := true }
      | .ctxDone => { s with connClosed := true, watchdogExited := true }
      | .timer => { s with connClosed := true, watchdogExited := true }
    else s

/-- Execution of a sequence of events of one UpgradeToTLS call. -/
def upgradeExec (s : UpgradeState) : List UpgradeAction → UpgradeState
  | [] => s
  | a :: rest => upgradeExec (upgradeStep s a) rest

/-- Initial state of one UpgradeToTLS call: the source launches exactly one
watchdog goroutine at entry. -/
def upgradeInit : UpgradeState :=
  ⟨false, false, false, false, false, false, 1⟩

theorem dialLoop_ne_noIPs {Ip Conn H E : Type} (connect : Ip → Except E Conn) (host : H)
    (ips : List Ip) (e : Option E) :
    dialLoop connect host ips e ≠ .error .noIPs := by
  induction ips generalizing e with
  | nil => simp [dialLoop]
  | cons ip rest ih =>
    simp only [dialLoop]
    cases connect ip with
    | ok c => simp
    | error e2 => exact ih _

theorem dial_ok_cons {Ip Conn H E : Type} (connect : Ip → Except E Conn) (host : H)
    (ip : Ip) (rest : List Ip) :
    Dial (.ok (ip :: rest)) connect host = dialLoop connect host (ip :: rest) none := rfl

theorem dialLoop_first_success {Ip Conn H E : Type} (connect : Ip → Except E Conn) (host : H)
    (pre suf : List Ip) (a : Ip) (c : Conn)
    (hpre : ∀ ip ∈ pre, ∃ er, connect ip = .error er)
    (ha : connect a = .ok c) (e0 : Option E) :
    dialLoop connect host (pre ++ a :: suf) e0 = .ok c := by
  induction pre generalizing e0 with
  | nil => simp [dialLoop, ha]
  | cons p pre ih =>
    obtain ⟨er, her⟩ := hpre p (by simp)
    simp only [List.cons_append, dialLoop, her]
    exact ih (fun ip hip => hpre ip (by simp [hip])) _

theorem dialLoop_all_fail {Ip Conn H E : Type} (connect : Ip → Except E Conn) (host : H)
    (l : List Ip) (a : Ip) (e : E)
    (hl : ∀ ip ∈ l, ∃ er, connect ip = .error er)
    (ha : connect a = .error e) (e0 : Option E) :
    dialLoop connect host (l ++ [a]) e0 = .error (.cannotDial host (some e)) := by
  induction l generalizing e0 with
  | nil => simp [dialLoop, ha]
  | cons p l ih =>
    obtain ⟨er, her⟩ := hl p (by simp)
    simp only [List.cons_append, dialLoop, her]
    exact ih (fun ip hip => hl ip (by simp [hip])) _

/-- C1: Dial attempts a TCP connect to each resolved address strictly in
resolver order and returns the first connection that succeeds; if every
attempt fails it returns the error of the last attempted address, wrapped
with the target host. -/
theorem dial_first_success_and_last_error {Ip Conn H E : Type}
    (lookup : Except E (List Ip)) (connect : Ip → Except E Conn) (host : H) :
    (∀ pre suf a c, lookup = .ok (pre ++ a :: suf) →
      (∀ ip ∈ pre, ∃ er, connect ip = .error er) → connect a = .ok c →
      Dial lookup connect host = .ok c) ∧
    (∀ l a e, lookup = .ok (l ++ [a]) →
      (∀ ip ∈ l, ∃ er, connect ip = .error er) → connect a = .error e →
      Dial lookup connect host = .error (.cannotDial host (some e))) := by
  constructor
  · rintro pre suf a c rfl hpre ha
    cases pre with
    | nil => rw [List.nil_append, dial_ok_cons]; exact dialLoop_first_success _ _ _ _ _ _ hpre ha _
    | cons p pre =>
      rw [List.cons_append, dial_ok_cons]
      exact dialLoop_first_success _ _ _ _ _ _ hpre ha _
  · rintro l a e rfl hl ha
    cases l with
    | nil => rw [List.nil_append, dial_ok_cons]; exact dialLoop_all_fail _ _ _ _ _ hl ha _
    | cons p l =>
      rw [List.cons_append, dial_ok_cons]
      exact dialLoop_all_fail _ _ _ _ _ hl ha _

/-- Witness for C1 at concrete inputs: with candidate addresses 1, 2, 3
where 1 and 2 fail and 3 succeeds, Dial returns the connection of 3; with
all three failing, it returns the last error wrapped with the host. -/
theorem dial_first_success_and_last_error_witness :
    Dial (.ok [1, 2, 3]) (fun ip => if ip = 3 then .ok 30 else .error (10 * ip)) "h"
      = (.ok 30 : Except (DialError String Nat) Nat) ∧
    Dial (.ok [1, 2, 3]) (fun ip : Nat => (.error (10 * ip) : Except Nat Nat)) "h"
      = .error (.cannotDial "h" (some 30)) := by
  constructor
  · exact (dial_first_success_and_last_error _ _ _).1 [1, 2] [] 3 30 rfl
      (by intro ip hip
          rcases List.mem_cons.mp hip with rfl | hip2
          · exact ⟨10, rfl⟩
          · rcases List.mem_cons.mp hip2 with rfl | h3
            · exact ⟨20, rfl⟩
            · simp at h3) rfl
  · exact (dial_first_success_and_last_error _ _ _).2 [1, 2] 3 30 rfl
      (by intro ip hip
          rcases List.mem_cons.mp hip with rfl | hip2
          · exact ⟨10, rfl⟩
          · rcases List.mem_cons.mp hip2 with rfl | h3
            · exact ⟨20, rfl⟩
            · simp at h3) rfl

/-- C8: Dial returns the distinct ErrNoIPs exactly when resolution succeeds
with a zero-length address list, and a resolver error is returned as a
wrapped resolution error, never as ErrNoIPs. -/
theorem dial_noIPs_iff {Ip Conn H E : Type} (lookup : Except E (List Ip))
    (connect : Ip → Except E Conn) (host : H) :
    (Dial lookup connect host = .error .noIPs ↔ lookup = .ok []) ∧
    (∀ e, lookup = .error e → Dial lookup connect host = .error (.cannotResolve e)) := by
  refine ⟨⟨?_, ?_⟩, ?_⟩
  · intro h
    match lookup with
    | .error e => simp [Dial] at h
    | .ok [] => rfl
    | .ok (ip :: rest) => exact absurd h (dialLoop_ne_noIPs connect host (ip :: rest) none)
  · rintro rfl; rfl
  · rintro e rfl; rfl

/-- Witness for C8 at concrete inputs: an empty resolved list yields
ErrNoIPs, and a resolver error is wrapped as a resolution error. -/
theorem dial_noIPs_iff_witness :
    Dial (.ok ([] : List Nat)) (fun ip : Nat => (.error (10 * ip) : Except Nat Nat)) "h"
      = .error .noIPs ∧
    Dial (.error 7) (fun ip : Nat => (.error (10 * ip) : Except Nat Nat)) "h"
      = .error (.cannotResolve 7) := by
  constructor
  · exact (dial_noIPs_iff (.ok []) _ "h").1.mpr rfl
  · exact (dial_noIPs_iff (.error 7) _ "h").2 7 rfl

/-- C7 (divergence from the specification): for the plain-HTTP absolute-form
target "http://example.com/path?x=1", PatchHTTPRequest rewrites the request
target to PathOriginal, which is the path alone — the query string is
dropped — whereas the relative path-plus-query form the claim states would
be "/path?x=1". -/
theorem patchHTTPRequest_drops_query :
    PatchHTTPRequest (strBytes "http://example.com/path?x=1") = strBytes "/path" ∧
    specRelativePathQuery (parseURI (strBytes "http://example.com/path?x=1"))
      = strBytes "/path?x=1" ∧
    strBytes "/path" ≠ strBytes "/path?x=1" := by
  refine ⟨?_, ?_, ?_⟩ <;> decide

theorem upgradeStep_no_close (s : UpgradeState) (a : UpgradeAction)
    (h1 : s.watchdogExited = true) (h2 : s.connClosed = false) :
    (upgradeStep s a).watchdogExited = true ∧ (upgradeStep s a).connClosed = false := by
  cases a with
  | cancelCtx => exact ⟨h1, h2⟩
  | fireTimer => exact ⟨h1, h2⟩
  | finishHandshake =>
    simp only [upgradeStep]
    split
    · exact ⟨h1, h2⟩
    · exact ⟨h1, h2⟩
  | wake b =>
    simp only [upgradeStep, h1]
    exact ⟨h1, h2⟩

theorem upgradeExec_no_close (s : UpgradeState) (acts : List UpgradeAction)
    (h1 : s.watchdogExited = true) (h2 : s.connClosed = false) :
    (upgradeExec s acts).connClosed = false := by
  induction acts generalizing s with
  | nil => exact h2
  | cons a rest ih =>
    exact ih _ (upgradeStep_no_close s a h1 h2).1 (upgradeStep_no_close s a h1 h2).2

/-- C6 (divergence from the specification): when the caller's context is
cancelled during the handshake, the watchdog's ownCtx.Done branch is also
ready (ownCtx is a child of the caller's context), so the select may commit
to it: the watchdog then exits without closing the connection, and no later
event ever closes it, even though the deferred cancel has not run and the
handshake has not completed. The claim's force-close guarantee therefore
does not hold on this execution. -/
theorem upgradeToTLS_watchdog_misses_close :
    (upgradeExec upgradeInit [.cancelCtx, .wake .ownDone]).ctxCancelled = true ∧
    (upgradeExec upgradeInit [.cancelCtx, .wake .ownDone]).handshakeDone = false ∧
    (upgradeExec upgradeInit [.cancelCtx, .wake .ownDone]).cancelCalled = false ∧
    branchReady (upgradeExec upgradeInit [.cancelCtx]) .ownDone = true ∧
    (upgradeExec upgradeInit [.cancelCtx, .wake .ownDone]).watchdogExited = true ∧
    (upgradeExec upgradeInit [.cancelCtx, .wake .ownDone]).watchdogsSpawned = 1 ∧
    ∀ acts : List UpgradeAction,
      (upgradeExec (upgradeExec upgradeInit [.cancelCtx, .wake .ownDone]) acts).connClosed
        = false := by
  refine ⟨rfl, rfl, rfl, rfl, rfl, rfl, fun acts => upgradeExec_no_close _ acts rfl rfl⟩

theorem okCt_eq (u : UserInfo) (user password : List Nat) :
    okCt u user password = (u.OK user password, 2) := rfl

theorem credentialLoopCt_go (infos : List UserInfo) (user password : List Nat)
    (b : Bool) (n : Nat) :
    (infos.foldl
        (fun acc i => ((okCt i user password).1 || acc.1, acc.2 + (okCt i user password).2))
        (b, n)).2 = n + 2 * infos.length ∧
    (infos.foldl
        (fun acc i => ((okCt i user password).1 || acc.1, acc.2 + (okCt i user password).2))
        (b, n)).1 = infos.foldl (fun found i => i.OK user password || found) b := by
  induction infos generalizing b n with
  | nil => exact ⟨rfl, rfl⟩
  | cons i rest ih =>
    rw [List.foldl_cons, List.length_cons]
    have hstep : ((okCt i user password).1 || (b, n).1, (b, n).2 + (okCt i user password).2)
        = (i.OK user password || b, n + 2) := rfl
    rw [hstep]
    refine ⟨?_, (ih _ _).2⟩
    rw [(ih _ _).1]
    ring

/-- C9: the credential check applies the fixed-time comparison primitive to
the user field and to the password field of every configured pair — exactly
two primitive invocations per pair, so the password comparison is never
skipped when the user comparison fails, and no pair is skipped once a match
is found — and the instrumented verdict coincides with the fold doAuth
uses. -/
theorem credential_check_constant_comparisons (infos : List UserInfo)
    (user password : List Nat) :
    (credentialLoopCt infos user password).2 = 2 * infos.length ∧
    (credentialLoopCt infos user password).1 =
      infos.foldl (fun found i => i.OK user password || found) false := by
  have h := credentialLoopCt_go infos user password false 0
  exact ⟨by simpa [credentialLoopCt] using h.1, by simpa [credentialLoopCt] using h.2⟩

/-- C10: the single-credential doAuth accepts a header exactly when the
payload parsed after the case-insensitive Basic token and the run of spaces
and tabs is byte-identical to the base64 encoding computed at construction;
the payload is never decoded, so every other spelling — in particular one
that decodes to the same credentials — is rejected with the failed-auth
error. -/
theorem doAuthSingle_accepts_iff (user password header : List Nat) :
    (doAuthSingle (newBasicAuthExpected user password) header = none ↔
      parseBasicHeader header = .ok (newBasicAuthExpected user password)) ∧
    (∀ rest, parseBasicHeader header = .ok rest →
      rest ≠ newBasicAuthExpected user password →
      doAuthSingle (newBasicAuthExpected user password) header = some .failedAuth) := by
  constructor
  · constructor
    · intro h
      unfold doAuthSingle at h
      match hp : parseBasicHeader header with
      | .error e => rw [hp] at h; simp at h
      | .ok rest =>
        rw [hp] at h
        by_cases hr : rest = newBasicAuthExpected user password
        · exact congrArg Except.ok hr
        · simp [constantTimeCompare, hr] at h
    · intro h
      unfold doAuthSingle
      rw [h]
      simp [constantTimeCompare]
  · intro rest hp hr
    unfold doAuthSingle
    rw [hp]
    simp [constantTimeCompare, hr]

/-- Witness for C10 at concrete inputs, credentials user and password: the
canonical payload is accepted; the alternative base64 spelling ending in
"B==" decodes to the very same credential bytes, yet it is rejected with the
failed-auth error because the comparison is on the encoded bytes. -/
theorem doAuthSingle_accepts_iff_witness :
    doAuthSingle (newBasicAuthExpected (strBytes "user") (strBytes "password"))
        (strBytes "Basic dXNlcjpwYXNzd29yZA==") = none ∧
    b64decode (strBytes "dXNlcjpwYXNzd29yZB==") = some (strBytes "user:password") ∧
    b64decode (strBytes "dXNlcjpwYXNzd29yZA==") = some (strBytes "user:password") ∧
    doAuthSingle (newBasicAuthExpected (strBytes "user") (strBytes "password"))
        (strBytes "Basic dXNlcjpwYXNzd29yZB==") = some .failedAuth := by
  refine ⟨?_, by decide, by decide, ?_⟩
  · exact (doAuthSingle_accepts_iff (strBytes "user") (strBytes "password")
      (strBytes "Basic dXNlcjpwYXNzd29yZA==")).1.mpr rfl
  · exact (doAuthSingle_accepts_iff (strBytes "user") (strBytes "password")
      (strBytes "Basic dXNlcjpwYXNzd29yZB==")).2
      (strBytes "dXNlcjpwYXNzd29yZB==") rfl (by decide)

/-- C5: the decode pipeline of doAuth fails in order: malformed header when
the text has no space; unsupported scheme when the token before the first
space is not case-insensitively Basic; bad payload when, after the run of
spaces and tabs, the remainder is not valid base64; and missing delimiter
when the decoded bytes contain no colon. -/
theorem doAuth_error_pipeline (infos : List UserInfo) (text : List Nat) :
    (indexByte text 32 = none → doAuth infos text = ⟨none, some .malformed⟩) ∧
    (∀ pos, indexByte text 32 = some pos →
      asciiEqualFold (text.take pos) (strBytes "Basic") = false →
      doAuth infos text = ⟨none, some .scheme⟩) ∧
    (∀ pos, indexByte text 32 = some pos →
      asciiEqualFold (text.take pos) (strBytes "Basic") = true →
      b64decode ((text.drop pos).dropWhile fun c => c == 32 || c == 9) = none →
      doAuth infos text = ⟨none, some .payload⟩) ∧
    (∀ pos decoded, indexByte text 32 = some pos →
      asciiEqualFold (text.take pos) (strBytes "Basic") = true →
      b64decode ((text.drop pos).dropWhile fun c => c == 32 || c == 9) = some decoded →
      indexByte decoded 58 = none →
      doAuth infos text = ⟨none, some .delimiter⟩) := by
  refine ⟨?_, ?_, ?_, ?_⟩
  · intro h
    simp [doAuth, h]
  · intro pos h1 h2
    simp [doAuth, h1, h2]
  · intro pos h1 h2 h3
    simp [doAuth, h1, h2, h3]
  · intro pos decoded h1 h2 h3 h4
    simp [doAuth, h1, h2, h3, h4]

/-- Witness for C5 at concrete headers, one per failure kind: no space at
all, a Digest scheme, an invalid base64 payload, and a decoded payload
without a colon. -/
theorem doAuth_error_pipeline_witness :
    doAuth [] (strBytes "NoSpaceHere") = ⟨none, some .malformed⟩ ∧
    doAuth [] (strBytes "Digest abc") = ⟨none, some .scheme⟩ ∧
    doAuth [] (strBytes "Basic not-valid-base64!!") = ⟨none, some .payload⟩ ∧
    doAuth [] (strBytes "Basic dXNlcnBhc3M=") = ⟨none, some .delimiter⟩ := by
  refine ⟨?_, ?_, ?_, ?_⟩
  · exact (doAuth_error_pipeline [] (strBytes "NoSpaceHere")).1 (by decide)
  · exact (doAuth_error_pipeline [] (strBytes "Digest abc")).2.1 6 (by decide) (by decide)
  · exact (doAuth_error_pipeline [] (strBytes "Basic not-valid-base64!!")).2.2.1 5
      (by decide) (by decide) (by decide)
  · exact (doAuth_error_pipeline [] (strBytes "Basic dXNlcnBhc3M=")).2.2.2 5
      (strBytes "userpass") (by decide) (by decide) (by decide) (by decide)

theorem foldl_or_eq_any (infos : List UserInfo) (f : UserInfo → Bool) (b : Bool) :
    infos.foldl (fun found i => f i || found) b = (b || infos.any f) := by
  induction infos generalizing b with
  | nil => simp
  | cons i rest ih =>
    rw [List.foldl_cons, ih, List.any_cons]
    cases b <;> cases f i <;> simp

theorem userInfo_OK_iff (u : UserInfo) (user password : List Nat) :
    u.OK user password = true ↔ u.user = user ∧ u.password = password := by
  unfold UserInfo.OK constantTimeCompare
  by_cases h1 : u.user = user <;> by_cases h2 : u.password = password <;> simp [h1, h2]

/-- C4: for a well-formed Basic header whose decoded payload splits at the
first colon into user and password fields, authentication succeeds with the
decoded user field as identity exactly when some configured pair matches
both fields, and otherwise fails with the no-such-user error. -/
theorem doAuth_success_iff (infos : List UserInfo) (text : List Nat)
    (pos p : Nat) (decoded : List Nat)
    (h1 : indexByte text 32 = some pos)
    (h2 : asciiEqualFold (text.take pos) (strBytes "Basic") = true)
    (h3 : b64decode ((text.drop pos).dropWhile fun c => c == 32 || c == 9) = some decoded)
    (h4 : indexByte decoded 58 = some p) :
    (doAuth infos text = ⟨some (decoded.take p), none⟩ ↔
      ∃ i ∈ infos, i.user = decoded.take p ∧ i.password = decoded.drop (p + 1)) ∧
    ((¬ ∃ i ∈ infos, i.user = decoded.take p ∧ i.password = decoded.drop (p + 1)) →
      doAuth infos text = ⟨none, some .noSuchUser⟩) := by
  have hauth : doAuth infos text =
      if infos.foldl
          (fun found i => i.OK (decoded.take p) (decoded.drop (p + 1)) || found) false then
        ⟨some (decoded.take p), none⟩
      else ⟨none, some .noSuchUser⟩ := by
    simp [doAuth, h1, h2, h3, h4]
  rw [hauth, foldl_or_eq_any]
  have hany : (infos.any fun i => i.OK (decoded.take p) (decoded.drop (p + 1))) = true ↔
      ∃ i ∈ infos, i.user = decoded.take p ∧ i.password = decoded.drop (p + 1) := by
    rw [List.any_eq_true]
    constructor
    · rintro ⟨i, hi, hok⟩
      exact ⟨i, hi, (userInfo_OK_iff i _ _).mp hok⟩
    · rintro ⟨i, hi, hu, hp⟩
      exact ⟨i, hi, (userInfo_OK_iff i _ _).mpr ⟨hu, hp⟩⟩
  constructor
  · cases hcase : infos.any fun i => i.OK (decoded.take p) (decoded.drop (p + 1)) with
    | true => simp only [Bool.false_or, hcase, if_true]; simp [hany.mp hcase]
    | false =>
      simp only [Bool.false_or, hcase, if_false]
      constructor
      · intro h; exact absurd h (by simp)
      · intro h; exact absurd (hany.mpr h) (by simp [hcase])
  · intro h
    have : (infos.any fun i => i.OK (decoded.take p) (decoded.drop (p + 1))) = false := by
      cases hcase : infos.any fun i => i.OK (decoded.take p) (decoded.drop (p + 1)) with
      | true => exact absurd (hany.mp hcase) h
      | false => rfl
    simp [this]

/-- Witness for C4 at concrete inputs: the pair alice and secret is
configured, the header carries base64 of alice colon secret, and doAuth
succeeds with identity alice; with only the pair bob and other configured,
the same header fails with the no-such-user error. -/
theorem doAuth_success_iff_witness :
    doAuth [⟨strBytes "alice", strBytes "secret"⟩] (strBytes "Basic YWxpY2U6c2VjcmV0")
      = ⟨some (strBytes "alice"), none⟩ ∧
    doAuth [⟨strBytes "bob", strBytes "other"⟩] (strBytes "Basic YWxpY2U6c2VjcmV0")
      = ⟨none, some .noSuchUser⟩ := by
  constructor
  · exact (doAuth_success_iff [⟨strBytes "alice", strBytes "secret"⟩]
      (strBytes "Basic YWxpY2U6c2VjcmV0") 5 5 (strBytes "alice:secret")
      (by decide) (by decide) (by decide) (by decide)).1.mpr
      ⟨⟨strBytes "alice", strBytes "secret"⟩, by simp, by decide, by decide⟩
  · exact (doAuth_success_iff [⟨strBytes "bob", strBytes "other"⟩]
      (strBytes "Basic YWxpY2U6c2VjcmV0") 5 5 (strBytes "alice:secret")
      (by decide) (by decide) (by decide) (by decide)).2
      (by rintro ⟨i, hi, hu, hp⟩; simp at hi; rw [hi] at hu; exact absurd hu (by decide))

theorem cacheLookup_eq_some (c : AuthCache) (k : List Nat) (r : BasicAuthResult)
    (h : cacheLookup c k = some r) : ∃ e ∈ c, e.1 = k ∧ e.2 = r := by
  unfold cacheLookup at h
  split at h
  · rename_i e heq
    injection h with h2
    refine ⟨e, List.mem_of_find?_eq_some heq, ?_, h2⟩
    have hp := List.find?_some heq
    simpa using hp
  · exact absurd h (by simp)

/-- Coherence of the cache with the authenticator: every stored entry is
exactly the doAuth result of its key, since Auth alone populates the
cache. -/
def cacheCoherent (infos : List UserInfo) (c : AuthCache) : Prop :=
  ∀ e ∈ c, e.2 = doAuth infos e.1

theorem cacheLookup_coherent (infos : List UserInfo) (c : AuthCache) (k : List Nat)
    (r : BasicAuthResult) (hcoh : cacheCoherent infos c)
    (h : cacheLookup c k = some r) : r = doAuth infos k := by
  obtain ⟨e, he, hk, hr⟩ := cacheLookup_eq_some c k r h
  rw [← hr, hcoh e he, hk]

theorem auth_some_eq (cap : Nat) (infos : List UserInfo) (c : AuthCache) (text : List Nat) :
    Auth cap infos c (some text) =
      match cacheLookup c text with
      | some r => (⟨true, r.reply, r.err⟩, cacheTouch c text, false)
      | none => (⟨true, (doAuth infos text).reply, (doAuth infos text).err⟩,
          cacheSet cap c text (doAuth infos text), true) := rfl

theorem auth_hit (cap : Nat) (infos : List UserInfo) (c : AuthCache) (text : List Nat)
    (r : BasicAuthResult) (hg : cacheLookup c text = some r) :
    Auth cap infos c (some text) = (⟨true, r.reply, r.err⟩, cacheTouch c text, false) := by
  rw [auth_some_eq, hg]

theorem auth_miss (cap : Nat) (infos : List UserInfo) (c : AuthCache) (text : List Nat)
    (hg : cacheLookup c text = none) :
    Auth cap infos c (some text) =
      (⟨true, (doAuth infos text).reply, (doAuth infos text).err⟩,
        cacheSet cap c text (doAuth infos text), true) := by
  rw [auth_some_eq, hg]

theorem cacheTouch_eq_of_found (c : AuthCache) (k : List Nat)
    (e : List Nat × BasicAuthResult) (heq : c.find? (fun e2 => e2.1 == k) = some e) :
    cacheTouch c k = e :: c.filter (fun e2 => !(e2.1 == k)) := by
  unfold cacheTouch
  rw [heq]

theorem cacheTouch_coherent (infos : List UserInfo) (c : AuthCache) (k : List Nat)
    (hcoh : cacheCoherent infos c) : cacheCoherent infos (cacheTouch c k) := by
  intro e he
  unfold cacheTouch at he
  split at he
  · rename_i e0 heq
    rcases List.mem_cons.mp he with rfl | h2
    · exact hcoh e (List.mem_of_find?_eq_some heq)
    · exact hcoh e (List.mem_of_mem_filter h2)
  · exact hcoh e he

theorem cacheSet_coherent (cap : Nat) (infos : List UserInfo) (c : AuthCache)
    (k : List Nat) (hcoh : cacheCoherent infos c) :
    cacheCoherent infos (cacheSet cap c k (doAuth infos k)) := by
  intro e he
  have he2 : e ∈ (k, doAuth infos k) :: c.filter (fun e2 => !(e2.1 == k)) :=
    List.take_subset _ _ he
  rcases List.mem_cons.mp he2 with rfl | h2
  · rfl
  · exact hcoh e (List.mem_of_mem_filter h2)

theorem auth_coherent (cap : Nat) (infos : List UserInfo) (c : AuthCache)
    (h : Option (List Nat)) (hcoh : cacheCoherent infos c) :
    cacheCoherent infos (Auth cap infos c h).2.1 := by
  match h with
  | none => exact hcoh
  | some text =>
    cases hg : cacheLookup c text with
    | some r =>
      rw [auth_hit cap infos c text r hg]
      exact cacheTouch_coherent infos c text hcoh
    | none =>
      rw [auth_miss cap infos c text hg]
      exact cacheSet_coherent cap infos c text hcoh

theorem authMany_coherent (cap : Nat) (infos : List UserInfo) (c : AuthCache)
    (hs : List (Option (List Nat))) (hcoh : cacheCoherent infos c) :
    cacheCoherent infos (authMany cap infos c hs) := by
  induction hs generalizing c with
  | nil => exact hcoh
  | cons h rest ih => exact ih _ (auth_coherent cap infos c h hcoh)

theorem auth_outcome_coherent (cap : Nat) (infos : List UserInfo) (c : AuthCache)
    (text : List Nat) (hcoh : cacheCoherent infos c) :
    (Auth cap infos c (some text)).1 =
      ⟨true, (doAuth infos text).reply, (doAuth infos text).err⟩ := by
  cases hg : cacheLookup c text with
  | some r =>
    rw [auth_hit cap infos c text r hg,
      cacheLookup_coherent infos c text r hcoh hg]
  | none => rw [auth_miss cap infos c text hg]

theorem cacheSet_lookup_self (cap : Nat) (c : AuthCache) (k : List Nat)
    (v : BasicAuthResult) (hcap : 1 ≤ cap) :
    cacheLookup (cacheSet cap c k v) k = some v := by
  obtain ⟨n, rfl⟩ : ∃ n, cap = n + 1 := ⟨cap - 1, by omega⟩
  unfold cacheSet cacheLookup
  rw [List.take_succ_cons]
  simp [List.find?]

theorem cacheTouch_lookup_self (c : AuthCache) (k : List Nat) (r : BasicAuthResult)
    (h : cacheLookup c k = some r) : cacheLookup (cacheTouch c k) k = some r := by
  unfold cacheLookup at h
  split at h
  · rename_i e heq
    injection h with h2
    rw [cacheTouch_eq_of_found c k e heq]
    have hp := List.find?_some heq
    simp only [] at hp
    unfold cacheLookup
    simp [List.find?, hp, h2]
  · exact absurd h (by simp)

theorem auth_call_lookup (cap : Nat) (infos : List UserInfo) (c : AuthCache)
    (text : List Nat) (hcap : 1 ≤ cap) :
    ∃ r, cacheLookup (Auth cap infos c (some text)).2.1 text = some r := by
  cases hg : cacheLookup c text with
  | some r =>
    rw [auth_hit cap infos c text r hg]
    exact ⟨r, cacheTouch_lookup_self c text r hg⟩
  | none =>
    rw [auth_miss cap infos c text hg]
    exact ⟨doAuth infos text, cacheSet_lookup_self cap c text _ hcap⟩

/-- C3 (amended): over the bounded LRU authentication cache, starting from
any coherent cache state (the empty cache included), two Auth calls with
byte-identical Proxy-Authorization header text always return the same
handled flag, identity and error, whatever requests are served in between —
failure outcomes are cached and replayed exactly like success outcomes,
since the cache stores the full result and doAuth is deterministic. The
decode/validate step is guaranteed not to re-run only while the cached
entry survives: in particular, when the capacity is at least one and the
second identical call comes next, it replays the cache without running
doAuth. -/
theorem auth_same_outcome_and_single_validate (cap : Nat) (infos : List UserInfo)
    (c0 : AuthCache) (text : List Nat) (between : List (Option (List Nat)))
    (hcoh : cacheCoherent infos c0) (hcap : 1 ≤ cap) :
    ((Auth cap infos
        (authMany cap infos (Auth cap infos c0 (some text)).2.1 between) (some text)).1
      = (Auth cap infos c0 (some text)).1) ∧
    ((Auth cap infos (Auth cap infos c0 (some text)).2.1 (some text)).1
      = (Auth cap infos c0 (some text)).1) ∧
    ((Auth cap infos (Auth cap infos c0 (some text)).2.1 (some text)).2.2 = false) := by
  have hc1 : cacheCoherent infos (Auth cap infos c0 (some text)).2.1 :=
    auth_coherent cap infos c0 (some text) hcoh
  have hcb : cacheCoherent infos
      (authMany cap infos (Auth cap infos c0 (some text)).2.1 between) :=
    authMany_coherent cap infos _ between hc1
  obtain ⟨r, hr⟩ := auth_call_lookup cap infos c0 text hcap
  refine ⟨?_, ?_, ?_⟩
  · rw [auth_outcome_coherent cap infos _ text hcb,
      auth_outcome_coherent cap infos c0 text hcoh]
  · rw [auth_outcome_coherent cap infos _ text hc1,
      auth_outcome_coherent cap infos c0 text hcoh]
  · rw [auth_hit cap infos _ text r hr]

/-- Witness for C3 at concrete inputs: one configured pair gives capacity 2
as NewBasicAuth builds it; from the empty cache, the replayed identical
header returns the same outcome as the first call — across an unrelated
request in between — and the consecutive replay does not run doAuth. -/
theorem auth_same_outcome_and_single_validate_witness :
    (1 ≤ newBasicAuthCap [⟨strBytes "alice", strBytes "secret"⟩]) ∧
    (((Auth (newBasicAuthCap [⟨strBytes "alice", strBytes "secret"⟩])
          [⟨strBytes "alice", strBytes "secret"⟩]
          (authMany (newBasicAuthCap [⟨strBytes "alice", strBytes "secret"⟩])
            [⟨strBytes "alice", strBytes "secret"⟩]
            (Auth (newBasicAuthCap [⟨strBytes "alice", strBytes "secret"⟩])
              [⟨strBytes "alice", strBytes "secret"⟩] []
              (some (strBytes "Basic YWxpY2U6c2VjcmV0"))).2.1
            [some (strBytes "Digest one")])
          (some (strBytes "Basic YWxpY2U6c2VjcmV0"))).1
        = (Auth (newBasicAuthCap [⟨strBytes "alice", strBytes "secret"⟩])
            [⟨strBytes "alice", strBytes "secret"⟩] []
            (some (strBytes "Basic YWxpY2U6c2VjcmV0"))).1) ∧
      ((Auth (newBasicAuthCap [⟨strBytes "alice", strBytes "secret"⟩])
          [⟨strBytes "alice", strBytes "secret"⟩]
          (Auth (newBasicAuthCap [⟨strBytes "alice", strBytes "secret"⟩])
            [⟨strBytes "alice", strBytes "secret"⟩] []
            (some (strBytes "Basic YWxpY2U6c2VjcmV0"))).2.1
          (some (strBytes "Basic YWxpY2U6c2VjcmV0"))).1
        = (Auth (newBasicAuthCap [⟨strBytes "alice", strBytes "secret"⟩])
            [⟨strBytes "alice", strBytes "secret"⟩] []
            (some (strBytes "Basic YWxpY2U6c2VjcmV0"))).1) ∧
      ((Auth (newBasicAuthCap [⟨strBytes "alice", strBytes "secret"⟩])
          [⟨strBytes "alice", strBytes "secret"⟩]
          (Auth (newBasicAuthCap [⟨strBytes "alice", strBytes "secret"⟩])
            [⟨strBytes "alice", strBytes "secret"⟩] []
            (some (strBytes "Basic YWxpY2U6c2VjcmV0"))).2.1
          (some (strBytes "Basic YWxpY2U6c2VjcmV0"))).2.2 = false)) :=
  ⟨by decide,
    auth_same_outcome_and_single_validate
      (newBasicAuthCap [⟨strBytes "alice", strBytes "secret"⟩])
      [⟨strBytes "alice", strBytes "secret"⟩] []
      (strBytes "Basic YWxpY2U6c2VjcmV0") [some (strBytes "Digest one")]
      (fun e he => absurd he (List.not_mem_nil e)) (by decide)⟩

/-- Counterexample to C3 as stated: the authentication cache is a bounded
LRU cache whose capacity is twice the number of configured pairs, so
distinct headers served in between can evict an entry well within the TTL.
With one configured pair (capacity 2), two distinct headers between two
byte-identical requests evict the first entry: the decode/validate step
runs again on the second identical request — not only for the first call —
although both calls still return the same outcome. -/
theorem auth_cache_eviction_counterexample :
    newBasicAuthCap [⟨strBytes "alice", strBytes "secret"⟩] = 2 ∧
    (Auth 2 [⟨strBytes "alice", strBytes "secret"⟩] []
        (some (strBytes "Basic YWxpY2U6c2VjcmV0"))).2.2 = true ∧
    (Auth 2 [⟨strBytes "alice", strBytes "secret"⟩]
        (authMany 2 [⟨strBytes "alice", strBytes "secret"⟩]
          (Auth 2 [⟨strBytes "alice", strBytes "secret"⟩] []
            (some (strBytes "Basic YWxpY2U6c2VjcmV0"))).2.1
          [some (strBytes "Digest one"), some (strBytes "Digest two")])
        (some (strBytes "Basic YWxpY2U6c2VjcmV0"))).2.2 = true ∧
    (Auth 2 [⟨strBytes "alice", strBytes "secret"⟩]
        (authMany 2 [⟨strBytes "alice", strBytes "secret"⟩]
          (Auth 2 [⟨strBytes "alice", strBytes "secret"⟩] []
            (some (strBytes "Basic YWxpY2U6c2VjcmV0"))).2.1
          [some (strBytes "Digest one"), some (strBytes "Digest two")])
        (some (strBytes "Basic YWxpY2U6c2VjcmV0"))).1
      = (Auth 2 [⟨strBytes "alice", strBytes "secret"⟩] []
          (some (strBytes "Basic YWxpY2U6c2VjcmV0"))).1 := by
  refine ⟨?_, ?_, ?_, ?_⟩ <;> decide

theorem listSet_get?_cases {α : Type} (l : List α) (t t2 : Nat) (x y : α)
    (h : (l.set t x).get? t2 = some y) : l.get? t2 = some y ∨ y = x := by
  induction l generalizing t t2 with
  | nil => simp [List.set] at h
  | cons a rest ih =>
    cases t with
    | zero =>
      cases t2 with
      | zero => right; simp at h; exact h.symm
      | succ t2 => left; simpa using h
    | succ t =>
      cases t2 with
      | zero => left; simpa using h
      | succ t2 => exact ih t t2 h

theorem replicate_get?_eq {α : Type} (n t : Nat) (x y : α)
    (h : (List.replicate n x).get? t = some y) : y = x := by
  induction n generalizing t with
  | zero => simp at h
  | succ n ih =>
    cases t with
    | zero => rw [List.replicate] at h; simp at h; exact h.symm
    | succ t => exact ih t (by rw [List.replicate] at h; simpa using h)

theorem tlsStep_now_le (fl : Bool) (s : TLSState) (a : TLSAction) :
    s.now ≤ (tlsStep fl s a).now := by
  cases a <;> simp only [tlsStep] <;> (repeat' split) <;> simp

theorem tlsExec_now_le (fl : Bool) (s : TLSState) (acts : List TLSAction) :
    s.now ≤ (tlsExec fl s acts).now := by
  induction acts generalizing s with
  | nil => exact le_refl _
  | cons a rest ih => exact (tlsStep_now_le fl s a).trans (ih _)

theorem cacheLiveGet_some_cache (s : TLSState) (c : TLSConfig)
    (h : cacheLiveGet s = some c) : ∃ w, s.cache = some (c, w) := by
  unfold cacheLiveGet at h
  split at h
  · rename_i c2 w heq
    split at h
    · injection h with h2
      exact ⟨w, by rw [heq, h2]⟩
    · exact absurd h (by simp)
  · exact absurd h (by simp)

theorem cacheLiveGet_of_live (s : TLSState) (c2 : TLSConfig) (w : Nat)
    (hcc : s.cache = some (c2, w)) (hlt : s.now < w + tlsConfigTTL) :
    cacheLiveGet s = some c2 := by
  unfold cacheLiveGet
  rw [hcc]
  show (if s.now < w + tlsConfigTTL then some c2 else none) = some c2
  rw [if_pos hlt]

theorem cacheLiveGet_none_cache (fl : Bool) (s : TLSState) (hnow : s.now < tlsConfigTTL)
    (hcw : ∀ c w, s.cache = some (c, w) → c = (⟨0, 0, fl⟩ : TLSConfig) ∧ w ≤ s.now)
    (h : cacheLiveGet s = none) : s.cache = none := by
  rcases hcc : s.cache with _ | ⟨c2, w⟩
  · rfl
  · have hw := (hcw c2 w hcc).2
    have hlt : s.now < w + tlsConfigTTL := by omega
    rw [cacheLiveGet_of_live s c2 w hcc hlt] at h
    exact absurd h (by simp)

/-- Invariant of the TLS configuration store within one TTL window: at most
one construction has happened; the cache holds an entry exactly when one
has; the cached entry is the single built config with its write time in the
past; and every finished call holds that config. -/
def TLSInv (fl : Bool) (s : TLSState) : Prop :=
  s.builds ≤ 1 ∧
  (s.cache = none ↔ s.builds = 0) ∧
  (∀ c w, s.cache = some (c, w) → c = ⟨0, 0, fl⟩ ∧ w ≤ s.now) ∧
  (∀ t c, s.threads.get? t = some (.done c) → c = ⟨0, 0, fl⟩)

theorem inv_threads_set (fl : Bool) (l : List TLSPc) (t : Nat) (pc : TLSPc)
    (hdone : ∀ t2 c, l.get? t2 = some (.done c) → c = ⟨0, 0, fl⟩)
    (hpc : ∀ c, pc = .done c → c = ⟨0, 0, fl⟩) :
    ∀ t2 c, (l.set t pc).get? t2 = some (.done c) → c = ⟨0, 0, fl⟩ := by
  intro t2 c h
  rcases listSet_get?_cases l t t2 pc _ h with h2 | h2
  · exact hdone t2 c h2
  · exact hpc c h2.symm

theorem tlsStep_inv (fl : Bool) (s : TLSState) (a : TLSAction)
    (hin : TLSInv fl s) (hnow : s.now < tlsConfigTTL) :
    TLSInv fl (tlsStep fl s a) := by
  obtain ⟨hb, hcb, hcw, hdone⟩ := hin
  cases a with
  | tick =>
    exact ⟨hb, hcb, fun c w h => ⟨(hcw c w h).1, Nat.le_succ_of_le (hcw c w h).2⟩, hdone⟩
  | fastGet t =>
    cases hg : s.threads.get? t with
    | none => simp only [tlsStep, hg]; exact ⟨hb, hcb, hcw, hdone⟩
    | some pc =>
      cases pc with
      | start =>
        cases hc : cacheLiveGet s with
        | some c =>
          simp only [tlsStep, hg, hc]
          refine ⟨hb, hcb, hcw, inv_threads_set fl _ t _ hdone ?_⟩
          intro c2 h2
          obtain ⟨w, hw⟩ := cacheLiveGet_some_cache s c hc
          have := (hcw c w hw).1
          injection h2 with h3
          rw [← h3, this]
        | none =>
          simp only [tlsStep, hg, hc]
          exact ⟨hb, hcb, hcw, inv_threads_set fl _ t _ hdone (fun c2 h2 => nomatch h2)⟩
      | waitLock => simp only [tlsStep, hg]; exact ⟨hb, hcb, hcw, hdone⟩
      | inLock => simp only [tlsStep, hg]; exact ⟨hb, hcb, hcw, hdone⟩
      | done c => simp only [tlsStep, hg]; exact ⟨hb, hcb, hcw, hdone⟩
  | acquire t =>
    cases hg : s.threads.get? t with
    | none => simp only [tlsStep, hg]; exact ⟨hb, hcb, hcw, hdone⟩
    | some pc =>
      cases pc with
      | waitLock =>
        simp only [tlsStep, hg]
        by_cases hl : s.lockHeld
        · rw [if_pos hl]; exact ⟨hb, hcb, hcw, hdone⟩
        · rw [if_neg hl]
          exact ⟨hb, hcb, hcw, inv_threads_set fl _ t _ hdone (fun c2 h2 => nomatch h2)⟩
      | start => simp only [tlsStep, hg]; exact ⟨hb, hcb, hcw, hdone⟩
      | inLock => simp only [tlsStep, hg]; exact ⟨hb, hcb, hcw, hdone⟩
      | done c => simp only [tlsStep, hg]; exact ⟨hb, hcb, hcw, hdone⟩
  | recheck t =>
    cases hg : s.threads.get? t with
    | none => simp only [tlsStep, hg]; exact ⟨hb, hcb, hcw, hdone⟩
    | some pc =>
      cases pc with
      | inLock =>
        cases hc : cacheLiveGet s with
        | some c =>
          simp only [tlsStep, hg, hc]
          refine ⟨hb, hcb, hcw, inv_threads_set fl _ t _ hdone ?_⟩
          intro c2 h2
          obtain ⟨w, hw⟩ := cacheLiveGet_some_cache s c hc
          have := (hcw c w hw).1
          injection h2 with h3
          rw [← h3, this]
        | none =>
          have hcnone : s.cache = none := cacheLiveGet_none_cache fl s hnow hcw hc
          have hb0 : s.builds = 0 := hcb.mp hcnone
          simp only [tlsStep, hg, hc]
          refine ⟨?_, ?_, ?_, ?_⟩
          · show s.builds + 1 ≤ 1
            omega
          · constructor
            · intro h2; exact absurd h2 (by simp)
            · intro h2
              have h3 : s.builds + 1 = 0 := h2
              exact absurd h3 (by omega)
          · intro c w h2
            injection h2 with h3
            have h4 : c = ⟨s.builds, s.builds, fl⟩ ∧ w = s.now := by
              constructor
              · exact (congrArg Prod.fst h3).symm
              · exact (congrArg Prod.snd h3).symm
            rw [h4.1, h4.2, hb0]
            exact ⟨rfl, le_refl _⟩
          · refine inv_threads_set fl _ t _ hdone ?_
            intro c2 h2
            injection h2 with h3
            rw [← h3, hb0]
      | start => simp only [tlsStep, hg]; exact ⟨hb, hcb, hcw, hdone⟩
      | waitLock => simp only [tlsStep, hg]; exact ⟨hb, hcb, hcw, hdone⟩
      | done c => simp only [tlsStep, hg]; exact ⟨hb, hcb, hcw, hdone⟩

theorem tlsExec_inv (fl : Bool) (s : TLSState) (acts : List TLSAction)
    (hin : TLSInv fl s) (hnow : (tlsExec fl s acts).now < tlsConfigTTL) :
    TLSInv fl (tlsExec fl s acts) := by
  induction acts generalizing s with
  | nil => exact hin
  | cons a rest ih =>
    refine ih (tlsStep fl s a) (tlsStep_inv fl s a hin ?_) hnow
    exact lt_of_le_of_lt ((tlsStep_now_le fl s a).trans (tlsExec_now_le fl _ rest)) hnow

theorem tlsInit_inv (fl : Bool) (n : Nat) : TLSInv fl (tlsInit n) := by
  refine ⟨Nat.zero_le 1, by simp [tlsInit], ?_, ?_⟩
  · intro c w h
    exact absurd h (by simp [tlsInit])
  · intro t c h
    exact absurd (replicate_get?_eq n t _ _ h) (by simp)

/-- C2 (amended): over any interleaving of getTLSConfig calls for one host
whose steps all happen within one TTL window — so the cached entry never
expires — at most one TLS client configuration is constructed, and every
call that finishes returns the identical instance: the single build, with
its fresh session-resumption cache and InsecureSkipVerify equal to the
configured TLSSkipVerify flag. This covers concurrent first calls: the
double-checked locking collapses them into one build. -/
theorem getTLSConfig_single_build (fl : Bool) (n : Nat) (acts : List TLSAction)
    (hnow : (tlsExec fl (tlsInit n) acts).now < tlsConfigTTL) :
    (tlsExec fl (tlsInit n) acts).builds ≤ 1 ∧
    (∀ t c, (tlsExec fl (tlsInit n) acts).threads.get? t = some (.done c) →
      c = ⟨0, 0, fl⟩) := by
  have h := tlsExec_inv fl (tlsInit n) acts (tlsInit_inv fl n) hnow
  exact ⟨h.1, h.2.2.2⟩

/-- Witness for C2 at a concrete interleaving: two calls race, the first
builds inside the critical section, the second hits the cache on its fast
read; one build happens and both calls hold the same instance. -/
theorem getTLSConfig_single_build_witness :
    (tlsExec true (tlsInit 2) [.fastGet 0, .acquire 0, .recheck 0, .fastGet 1]).now
        < tlsConfigTTL ∧
    ((tlsExec true (tlsInit 2) [.fastGet 0, .acquire 0, .recheck 0, .fastGet 1]).builds ≤ 1 ∧
      (∀ t c,
        (tlsExec true (tlsInit 2)
            [.fastGet 0, .acquire 0, .recheck 0, .fastGet 1]).threads.get? t
          = some (.done c) → c = ⟨0, 0, true⟩)) :=
  ⟨by decide,
    getTLSConfig_single_build true 2 [.fastGet 0, .acquire 0, .recheck 0, .fastGet 1]
      (by decide)⟩

/-- Counterexample to C2 as stated: without the within-one-TTL-window
restriction the claim fails. One call builds the config at minute 0; after
the ten-minute TTL elapses, a second call misses both the fast read and the
locked re-check, so getTLSConfig constructs a second configuration: two
builds happen for the same host, and the two calls return different,
non-identical instances. -/
theorem getTLSConfig_rebuild_after_ttl :
    (tlsExec false (tlsInit 2)
        ([.fastGet 0, .acquire 0, .recheck 0] ++ List.replicate 10 .tick ++
          [.fastGet 1, .acquire 1, .recheck 1])).builds = 2 ∧
    (tlsExec false (tlsInit 2)
        ([.fastGet 0, .acquire 0, .recheck 0] ++ List.replicate 10 .tick ++
          [.fastGet 1, .acquire 1, .recheck 1])).threads.get? 0
      = some (.done ⟨0, 0, false⟩) ∧
    (tlsExec false (tlsInit 2)
        ([.fastGet 0, .acquire 0, .recheck 0] ++ List.replicate 10 .tick ++
          [.fastGet 1, .acquire 1, .recheck 1])).threads.get? 1
      = some (.done ⟨1, 1, false⟩) ∧
    (⟨0, 0, false⟩ : TLSConfig) ≠ ⟨1, 1, false⟩ := by
  refine ⟨?_, ?_, ?_, ?_⟩ <;> decide
